import Mathlib

/-!
Verification of the SCARA plotter trajectory/kinematics engine.

Shallow embedding of:
- `kinematic_part/IK3.py` (ScaraRobot kinematics, quintic/linear motion
  profilers, trajectory builder, motor-command synthesizer),
- `scara_grid_test.py` (SCARARobotController inverse/forward kinematics
  with reachability flag),
- `trajectory_sender_grid_3.py` (realtime dispatch loop with abort-on-error
  and the final safe-state M4-off write).

Machine floating point is modelled by the real numbers; Python `math.atan2`
is modelled as the argument of the complex number `x + y*I`, `math.dist` as
the Euclidean distance, `int(...)` as truncation toward zero, and
`round(x, k)` as rounding to `k` decimal places.
-/

namespace Scara

noncomputable section

/-- Python `math.atan2 y x`: the angle of the point `(x, y)`, in `(-pi, pi]`. -/
def atan2 (y x : ℝ) : ℝ := Complex.arg ⟨x, y⟩

/-- Python `math.degrees`. -/
def degrees (t : ℝ) : ℝ := t * (180 / Real.pi)

/-- Python `math.radians`. -/
def radians (d : ℝ) : ℝ := d * (Real.pi / 180)

/-- Python `int(x)`: truncation toward zero. -/
def trunc (x : ℝ) : ℤ := if 0 ≤ x then ⌊x⌋ else -⌊-x⌋

/-- Python `round(x, 3)` (at the inputs the code produces, never a tie). -/
def round3 (x : ℝ) : ℝ := (round (x * 1000) : ℤ) / 1000

/-- Python `round(x, 1)` (ties do not matter for any claim below). -/
def round1 (x : ℝ) : ℝ := (round (x * 10) : ℤ) / 10

/-- Python `math.dist p q` on 2-D points. -/
def pyDist (p q : ℝ × ℝ) : ℝ := Real.sqrt ((p.1 - q.1) ^ 2 + (p.2 - q.2) ^ 2)

/-! ### Constants of IK3.py -/

def DT : ℝ := 0.02

def STEPS_PER_REV : ℝ := 200

def MICROSTEPS : ℝ := 32

/-- Gear reduction of joint 1 (constant `GEAR_RATIO_J1 = 2` in the source). -/
def GEAR_J1 : ℝ := 2

/-- Gear reduction of joint 2 (constant `GEAR_RATIO_J2 = 2.5` in the source). -/
def GEAR_J2 : ℝ := 2.5

def STEPS_PER_RAD_J1 : ℝ := STEPS_PER_REV * MICROSTEPS * GEAR_J1 / (2 * Real.pi)

def STEPS_PER_RAD_J2 : ℝ := STEPS_PER_REV * MICROSTEPS * GEAR_J2 / (2 * Real.pi)

def TRAVEL_SPEED : ℝ := 50

def DRAW_SPEED : ℝ := 30

def PEN_DOWN_DELAY : ℝ := 2

/-! ### ScaraRobot (IK3.py lines 59-91) -/

structure ScaraRobot where
  l1 : ℝ
  l2 : ℝ

/-- Raw cosine of theta2, `(x^2+y^2-l1^2-l2^2)/(2*l1*l2)`, before clamping
(IK3.py lines 65-69). -/
def ScaraRobot.c2raw (r : ScaraRobot) (x y : ℝ) : ℝ :=
  (x ^ 2 + y ^ 2 - r.l1 ^ 2 - r.l2 ^ 2) / (2 * r.l1 * r.l2)

/-- The two sequential clamp statements of IK3.py lines 71-72. -/
def ScaraRobot.c2clamped (r : ScaraRobot) (x y : ℝ) : ℝ :=
  let c := r.c2raw x y
  if c > 1 then 1 else if c < -1 then -1 else c

/-- IK3.py `ScaraRobot.inverse_kinematics` (lines 64-84).  All return paths
of the Python function produce a pair of angles (radians); the `None` value
tested for downstream is never produced. -/
def ScaraRobot.inverse_kinematics (r : ScaraRobot) (x y : ℝ) : ℝ × ℝ :=
  if 2 * r.l1 * r.l2 = 0 then (0, 0)
  else
    let c2 := r.c2clamped x y
    let s2 := Real.sqrt (1 - c2 ^ 2)
    let theta2 := atan2 s2 c2
    if x ^ 2 + y ^ 2 = 0 then (0, 0)
    else
      let term := r.l1 + r.l2 * c2
      let s1 := (-x * r.l2 * s2 + y * term) / (x ^ 2 + y ^ 2)
      let c1 := (y * r.l2 * s2 + x * term) / (x ^ 2 + y ^ 2)
      (atan2 s1 c1, theta2)

/-- IK3.py `ScaraRobot.forward_kinematics` (lines 86-91), returning the
elbow point and the end-effector point. -/
def ScaraRobot.forward_kinematics (r : ScaraRobot) (t1 t2 : ℝ) : ℝ × ℝ × ℝ × ℝ :=
  let xe := r.l1 * Real.cos t1
  let ye := r.l1 * Real.sin t1
  (xe, ye, xe + r.l2 * Real.cos (t1 + t2), ye + r.l2 * Real.sin (t1 + t2))

/-! ### SCARARobotController (scara_grid_test.py lines 7-84) -/

structure SCARARobotController where
  L1 : ℝ
  L2 : ℝ

/-- Workspace outer limit, `self.max_reach = L1 + L2`. -/
def SCARARobotController.max_reach (c : SCARARobotController) : ℝ := c.L1 + c.L2

/-- Workspace inner limit, `self.min_reach = abs(L1 - L2)`. -/
def SCARARobotController.min_reach (c : SCARARobotController) : ℝ := |c.L1 - c.L2|

/-- Law-of-cosines value for theta2 (scara_grid_test.py line 61). -/
def SCARARobotController.cos_theta2 (c : SCARARobotController) (x y : ℝ) : ℝ :=
  (x ^ 2 + y ^ 2 - c.L1 ^ 2 - c.L2 ^ 2) / (2 * c.L1 * c.L2)

/-- scara_grid_test.py `inverse_kinematics` (lines 50-74): returns
`(theta1_deg, theta2_deg, is_valid)`; elbow-up branch. -/
def SCARARobotController.inverse_kinematics (c : SCARARobotController) (x y : ℝ) :
    ℝ × ℝ × Bool :=
  let distance := Real.sqrt (x ^ 2 + y ^ 2)
  if distance > c.max_reach ∨ distance < c.min_reach then (0, 0, false)
  else
    let c2 := c.cos_theta2 x y
    if |c2| > 1 then (0, 0, false)
    else
      let theta2 := atan2 (Real.sqrt (1 - c2 ^ 2)) c2
      let k1 := c.L1 + c.L2 * Real.cos theta2
      let k2 := c.L2 * Real.sin theta2
      let theta1 := atan2 y x - atan2 k2 k1
      (degrees theta1, degrees theta2, true)

/-- scara_grid_test.py `forward_kinematics` (lines 76-84): angles in degrees. -/
def SCARARobotController.forward_kinematics (c : SCARARobotController)
    (theta1_deg theta2_deg : ℝ) : ℝ × ℝ :=
  let t1 := radians theta1_deg
  let t2 := radians theta2_deg
  (c.L1 * Real.cos t1 + c.L2 * Real.cos (t1 + t2),
   c.L1 * Real.sin t1 + c.L2 * Real.sin (t1 + t2))

/-! ### Motion profilers (IK3.py lines 96-137) -/

/-- IK3.py `get_quintic_scalar` (lines 96-100). -/
def get_quintic_scalar (t T : ℝ) : ℝ :=
  if t ≥ T then 1
  else if t ≤ 0 then 0
  else
    let tau := t / T
    10 * tau ^ 3 - 15 * tau ^ 4 + 6 * tau ^ 5

/-- One trajectory sample `(x, y, pen)`. -/
abbrev Sample := ℝ × ℝ × ℕ

/-- IK3.py `interpolate_travel` (lines 102-121): quintic time scaling,
samples at times `i*dt` for `i = 0 .. num_samples-1`. -/
def interpolate_travel (start_p end_p : ℝ × ℝ) (speed dt : ℝ) (pen_state : ℕ) :
    List Sample :=
  let dist := pyDist start_p end_p
  if dist < 0.001 then []
  else
    let duration := dist / speed
    let duration := if duration < dt then dt else duration
    let n0 := (trunc (duration / dt)).toNat
    let num_samples := if n0 < 5 then 5 else n0
    let T := num_samples * dt
    (List.range num_samples).map fun (i : ℕ) =>
      let s := get_quintic_scalar ((i : ℝ) * dt) T
      (start_p.1 + (end_p.1 - start_p.1) * s, start_p.2 + (end_p.2 - start_p.2) * s,
       pen_state)

/-- IK3.py `interpolate_linear` (lines 123-137): linear time scaling, samples
at fractions `i/num_samples` for `i = 1 .. num_samples`. -/
def interpolate_linear (start_p end_p : ℝ × ℝ) (speed dt : ℝ) (pen_state : ℕ) :
    List Sample :=
  let dist := pyDist start_p end_p
  if dist < 0.001 then []
  else
    let duration := dist / speed
    if duration < dt then [(end_p.1, end_p.2, pen_state)]
    else
      let num_samples := (trunc (duration / dt)).toNat
      (List.range num_samples).map fun i =>
        let t := ((i + 1 : ℕ) : ℝ) / num_samples
        (start_p.1 + (end_p.1 - start_p.1) * t, start_p.2 + (end_p.2 - start_p.2) * t,
         pen_state)

/-! ### Trajectory builder (IK3.py lines 218-297) -/

structure Waypoint where
  x : ℝ
  y : ℝ
  pen : ℕ

/-- Body of the target-processing loop of IK3.py lines 261-297, acting on the
state `(full_trajectory, (current_x, current_y))`. -/
def processTarget (st : List Sample × (ℝ × ℝ)) (target : Waypoint) :
    List Sample × (ℝ × ℝ) :=
  let traj := st.1
  let start_pos := st.2
  let target_pos := (target.x, target.y)
  if pyDist start_pos target_pos < 0.001 ∧ target.pen = 1 then st
  else if target.pen = 0 then
    let wait_steps := (trunc (0.2 / DT)).toNat
    let dwell := List.replicate wait_steps (start_pos.1, start_pos.2, 0)
    let moves0 := interpolate_travel start_pos target_pos TRAVEL_SPEED DT 0
    let moves := if moves0 = [] then [(target.x, target.y, 0)] else moves0
    (traj ++ dwell ++ moves, target_pos)
  else
    let last_state := match traj.getLast? with
      | some s => s.2.2
      | none => 0
    let dwell :=
      if last_state = 0 then
        List.replicate ((trunc (PEN_DOWN_DELAY / DT)).toNat) (start_pos.1, start_pos.2, 1)
      else []
    let moves := interpolate_linear start_pos target_pos DRAW_SPEED DT 1
    (traj ++ dwell ++ moves, target_pos)

/-- IK3.py lines 218-297: the full trajectory, seeded with the home sample
`(home.1, home.2, 0)` and folding the target list through `processTarget`. -/
def buildTrajectory (home : ℝ × ℝ) (targets : List Waypoint) : List Sample :=
  (targets.foldl processTarget ([(home.1, home.2, 0)], home)).1

/-! ### Command synthesizer (IK3.py lines 304-340) -/

/-- One CSV row of the generated motor-command table. -/
structure MotorCommand where
  time : ℝ
  j1pos : ℤ
  j1dir : ℕ
  j1delta : ℤ
  j1hz : ℝ
  j2pos : ℤ
  j2dir : ℕ
  j2delta : ℤ
  j2hz : ℝ
  pen : ℕ

/-- Step positions for one sample (IK3.py lines 313-322): if the inverse
kinematics reports no solution (`t1 is None`), hold the previous step
positions; otherwise convert angles to steps and remove the home offset with
sign inversion. -/
def synthPos (ikf : ℝ → ℝ → Option (ℝ × ℝ)) (o1 o2 p1 p2 : ℤ) (x y : ℝ) : ℤ × ℤ :=
  match ikf x y with
  | none => (p1, p2)
  | some (t1, t2) =>
      (-(trunc (t1 * STEPS_PER_RAD_J1) - o1), -(trunc (t2 * STEPS_PER_RAD_J2) - o2))

/-- The command-generation loop of IK3.py lines 312-340, carrying the row
index and the previous step positions. -/
def genCommandsGo (ikf : ℝ → ℝ → Option (ℝ × ℝ)) (o1 o2 : ℤ) :
    ℕ → ℤ → ℤ → List Sample → List MotorCommand
  | _, _, _, [] => []
  | i, p1, p2, s :: rest =>
    let c := synthPos ikf o1 o2 p1 p2 s.1 s.2.1
    let d1 := c.1 - p1
    let d2 := c.2 - p2
    { time := round3 (i * DT)
      j1pos := c.1
      j1dir := if 0 ≤ d1 then 1 else 0
      j1delta := |d1|
      j1hz := round1 ((|d1| : ℝ) / DT)
      j2pos := c.2
      j2dir := if 0 ≤ d2 then 1 else 0
      j2delta := |d2|
      j2hz := round1 ((|d2| : ℝ) / DT)
      pen := s.2.2 } :: genCommandsGo ikf o1 o2 (i + 1) c.1 c.2 rest

/-- IK3.py lines 309-340: commands for a whole trajectory, starting from row
index 0 and previous step positions `(0, 0)`. -/
def genCommands (ikf : ℝ → ℝ → Option (ℝ × ℝ)) (o1 o2 : ℤ) (traj : List Sample) :
    List MotorCommand :=
  genCommandsGo ikf o1 o2 0 0 0 traj

/-- IK3.py lines 304-340 specialised to a concrete robot: home offsets are the
truncated step counts of the home pose, and the loop's inverse kinematics is
the robot's (which always yields a pair, never `None`). -/
def motorCommands (r : ScaraRobot) (homeX homeY : ℝ) (traj : List Sample) :
    List MotorCommand :=
  let th := r.inverse_kinematics homeX homeY
  genCommands (fun x y => some (r.inverse_kinematics x y))
    (trunc (th.1 * STEPS_PER_RAD_J1)) (trunc (th.2 * STEPS_PER_RAD_J2)) traj

/-- The step-position state after folding `synthPos` over a list of samples,
starting from `p`; the command of row `j` carries exactly this state for the
first `j + 1` samples. -/
def posFrom (ikf : ℝ → ℝ → Option (ℝ × ℝ)) (o1 o2 : ℤ) (p : ℤ × ℤ)
    (l : List Sample) : ℤ × ℤ :=
  l.foldl (fun q s => synthPos ikf o1 o2 q.1 q.2 s.1 s.2.1) p

end

/-! ### Realtime dispatcher (trajectory_sender_grid_3.py lines 46-100) -/

/-- One row read from the command CSV (integer values, as parsed by the
dispatcher). -/
structure CsvRow where
  j1pos : ℤ
  j1hz : ℤ
  j2pos : ℤ
  j2hz : ℤ
  pen : ℤ
deriving DecidableEq, Repr

/-- An observable hardware write: a batch register write of the four
step/velocity values (tagged with its row index), or a write of the pen
bit M4. -/
inductive PlcWrite
  | regs (row : ℕ) (d100 d102 d104 d106 : ℤ)
  | bitM4 (v : ℤ)
deriving DecidableEq, Repr

/-- The two writes the dispatch loop issues for one successfully sent row. -/
def rowWrites (i : ℕ) (r : CsvRow) : List PlcWrite :=
  [PlcWrite.regs i r.j1pos r.j1hz r.j2pos r.j2hz, PlcWrite.bitM4 r.pen]

/-- trajectory_sender_grid_3.py lines 46-99: the dispatch loop.  `failAt`
says at which row index (if any) the batch register write raises; on that
row the exception is caught, the loop breaks, and control falls through to
the single safe-state write `M4 := 0` of line 99 (which also runs on normal
completion).  Returns the write trace and the failing row index, if any. -/
def dispatchGo (failAt : Option ℕ) : ℕ → List CsvRow → List PlcWrite × Option ℕ
  | _, [] => ([PlcWrite.bitM4 0], none)
  | i, r :: rest =>
    if failAt = some i then ([PlcWrite.bitM4 0], some i)
    else
      let rem := dispatchGo failAt (i + 1) rest
      (rowWrites i r ++ rem.1, rem.2)

/-- Dispatch of a whole command table, rows indexed from 0. -/
def dispatch (failAt : Option ℕ) (rows : List CsvRow) : List PlcWrite × Option ℕ :=
  dispatchGo failAt 0 rows

/-- The writes a failure-free pass over `rows` issues (two per row, in row
order); used to state what a partial dispatch emits. -/
def expectedWrites : ℕ → List CsvRow → List PlcWrite
  | _, [] => []
  | i, r :: rest => rowWrites i r ++ expectedWrites (i + 1) rest

/-! ## Helper lemmas -/

lemma dispatchGo_fail (rows : List CsvRow) : ∀ i k : ℕ, i ≤ k → k < i + rows.length →
    dispatchGo (some k) i rows =
      (expectedWrites i (rows.take (k - i)) ++ [PlcWrite.bitM4 0], some k) := by
  induction rows with
  | nil => intro i k hik hk; simp only [List.length_nil, Nat.add_zero] at hk; omega
  | cons r rest ih =>
    intro i k hik hk
    by_cases hki : k = i
    · subst hki
      simp [dispatchGo, expectedWrites]
    · have hlt : i < k := lt_of_le_of_ne hik (Ne.symm hki)
      have ih' := ih (i + 1) k hlt (by simpa [Nat.add_comm, Nat.add_left_comm] using hk)
      have hcond : ¬ ((some k : Option ℕ) = some i) := by simpa using hki
      simp only [dispatchGo, if_neg hcond, ih']
      have hsub : k - i = (k - (i + 1)) + 1 := by omega
      rw [hsub, List.take_succ_cons]
      simp [expectedWrites, List.append_assoc]

/-- Quintic time-scaling polynomial used on the interior of `[0, T]`. -/
lemma quintic_eqOn (T : ℝ) (hT : 0 < T) :
    Set.EqOn (fun t => get_quintic_scalar t T)
      (fun t => 10 * (t / T) ^ 3 - 15 * (t / T) ^ 4 + 6 * (t / T) ^ 5)
      (Set.Icc 0 T) := by
  intro t ht
  simp only [get_quintic_scalar]
  split_ifs with h1 h2
  · have : t = T := le_antisymm ht.2 h1
    subst this
    rw [div_self hT.ne']
    norm_num
  · have : t = 0 := le_antisymm h2 ht.1
    subst this
    rw [zero_div]
    norm_num
  · rfl

lemma quintic_poly_hasDerivAt (T : ℝ) (_hT : T ≠ 0) (t : ℝ) :
    HasDerivAt (fun t => 10 * (t / T) ^ 3 - 15 * (t / T) ^ 4 + 6 * (t / T) ^ 5)
      ((30 * (t / T) ^ 2 - 60 * (t / T) ^ 3 + 30 * (t / T) ^ 4) / T) t := by
  have h1 : HasDerivAt (fun t : ℝ => t / T) (1 / T) t := (hasDerivAt_id t).div_const T
  have h3 := (h1.pow 3).const_mul (10 : ℝ)
  have h4 := (h1.pow 4).const_mul (15 : ℝ)
  have h5 := (h1.pow 5).const_mul (6 : ℝ)
  have h := (h3.sub h4).add h5
  refine h.congr_deriv ?_
  push_cast
  ring

lemma quintic_strictMonoOn (T : ℝ) (hT : 0 < T) :
    StrictMonoOn (fun t => get_quintic_scalar t T) (Set.Icc 0 T) := by
  have hpoly : StrictMonoOn
      (fun t : ℝ => 10 * (t / T) ^ 3 - 15 * (t / T) ^ 4 + 6 * (t / T) ^ 5)
      (Set.Icc 0 T) := by
    apply strictMonoOn_of_deriv_pos (convex_Icc 0 T)
    · apply Continuous.continuousOn
      continuity
    · intro x hx
      rw [interior_Icc] at hx
      rw [(quintic_poly_hasDerivAt T hT.ne' x).deriv]
      have hu0 : 0 < x / T := div_pos hx.1 hT
      have hu1 : x / T < 1 := (div_lt_one hT).2 hx.2
      have hfac : 30 * (x / T) ^ 2 - 60 * (x / T) ^ 3 + 30 * (x / T) ^ 4
          = 30 * (x / T) ^ 2 * (1 - x / T) ^ 2 := by ring
      rw [hfac]
      have : 0 < 30 * (x / T) ^ 2 * (1 - x / T) ^ 2 :=
        mul_pos (mul_pos (by norm_num) (pow_pos hu0 2)) (pow_pos (by linarith) 2)
      exact div_pos this hT
  intro a ha b hb hab
  have ea := quintic_eqOn T hT ha
  have eb := quintic_eqOn T hT hb
  simp only at ea eb
  calc get_quintic_scalar a T = _ := ea
    _ < _ := hpoly ha hb hab
    _ = get_quintic_scalar b T := eb.symm

lemma quintic_deriv_zero_at (T : ℝ) (hT : 0 < T) (x : ℝ) (hx : x ∈ Set.Icc 0 T)
    (hval : (30 * (x / T) ^ 2 - 60 * (x / T) ^ 3 + 30 * (x / T) ^ 4) / T = 0) :
    HasDerivWithinAt (fun t => get_quintic_scalar t T) 0 (Set.Icc 0 T) x := by
  have h := ((quintic_poly_hasDerivAt T hT.ne' x).hasDerivWithinAt
    (s := Set.Icc 0 T)).congr_deriv hval
  exact h.congr (fun y hy => quintic_eqOn T hT hy) (quintic_eqOn T hT hx)

lemma genCommandsGo_length (ikf : ℝ → ℝ → Option (ℝ × ℝ)) (o1 o2 : ℤ) :
    ∀ (l : List Sample) (i : ℕ) (p1 p2 : ℤ),
      (genCommandsGo ikf o1 o2 i p1 p2 l).length = l.length := by
  intro l
  induction l with
  | nil => intro i p1 p2; simp [genCommandsGo]
  | cons s rest ih => intro i p1 p2; simp [genCommandsGo, ih]

lemma round3_nat_mul_DT (n : ℕ) : round3 ((n : ℝ) * DT) = (n : ℝ) * DT := by
  have h20 : (n : ℝ) * DT * 1000 = ((20 * (n : ℤ) : ℤ) : ℝ) := by
    simp only [DT]
    push_cast
    ring
  rw [round3, h20, round_intCast]
  push_cast
  simp only [DT]
  ring

lemma genCommandsGo_time (ikf : ℝ → ℝ → Option (ℝ × ℝ)) (o1 o2 : ℤ) :
    ∀ (l : List Sample) (i : ℕ) (p1 p2 : ℤ) (j : ℕ)
      (h : j < (genCommandsGo ikf o1 o2 i p1 p2 l).length),
      ((genCommandsGo ikf o1 o2 i p1 p2 l).get ⟨j, h⟩).time =
        round3 (((i + j : ℕ) : ℝ) * DT) := by
  intro l
  induction l with
  | nil =>
    intro i p1 p2 j h
    simp [genCommandsGo] at h
  | cons s rest ih =>
    intro i p1 p2 j h
    match j with
    | 0 => simp [genCommandsGo]
    | j + 1 =>
      have h' : j + 1 < (genCommandsGo ikf o1 o2 i p1 p2 (s :: rest)).length := h
      simp only [genCommandsGo] at h' ⊢
      rw [List.get_cons_succ]
      rw [ih (i + 1) _ _ j (by simpa using h')]
      rw [show i + 1 + j = i + (j + 1) from by omega]

lemma genCommandsGo_pos (ikf : ℝ → ℝ → Option (ℝ × ℝ)) (o1 o2 : ℤ) :
    ∀ (l : List Sample) (i : ℕ) (p1 p2 : ℤ) (j : ℕ)
      (h : j < (genCommandsGo ikf o1 o2 i p1 p2 l).length),
      (((genCommandsGo ikf o1 o2 i p1 p2 l).get ⟨j, h⟩).j1pos,
       ((genCommandsGo ikf o1 o2 i p1 p2 l).get ⟨j, h⟩).j2pos) =
        posFrom ikf o1 o2 (p1, p2) (l.take (j + 1)) := by
  intro l
  induction l with
  | nil =>
    intro i p1 p2 j h
    simp [genCommandsGo] at h
  | cons s rest ih =>
    intro i p1 p2 j h
    match j with
    | 0 => simp [genCommandsGo, posFrom]
    | j + 1 =>
      have h' : j + 1 < (genCommandsGo ikf o1 o2 i p1 p2 (s :: rest)).length := h
      simp only [genCommandsGo] at h' ⊢
      rw [List.get_cons_succ]
      rw [ih (i + 1) _ _ j (by simpa using h')]
      simp [posFrom, List.foldl_cons]

lemma abs_mk_eq (a b r : ℝ) (hr : 0 ≤ r) (h : a ^ 2 + b ^ 2 = r ^ 2) :
    Complex.abs ⟨a, b⟩ = r := by
  rw [Complex.abs_apply, Complex.normSq_mk]
  rw [show a * a + b * b = r ^ 2 by linear_combination h]
  exact Real.sqrt_sq hr

lemma cos_atan2 (b a r : ℝ) (hr : 0 < r) (h : a ^ 2 + b ^ 2 = r ^ 2) :
    Real.cos (atan2 b a) = a / r := by
  have habs : Complex.abs ⟨a, b⟩ = r := abs_mk_eq a b r hr.le h
  have hz : (⟨a, b⟩ : ℂ) ≠ 0 := by
    intro h0
    rw [h0, map_zero] at habs
    exact hr.ne habs
  rw [atan2, Complex.cos_arg hz, habs]

lemma sin_atan2 (b a r : ℝ) (hr : 0 < r) (h : a ^ 2 + b ^ 2 = r ^ 2) :
    Real.sin (atan2 b a) = b / r := by
  have habs : Complex.abs ⟨a, b⟩ = r := abs_mk_eq a b r hr.le h
  rw [atan2, Complex.sin_arg, habs]

lemma atan2_zero_zero : atan2 0 0 = 0 := by
  have h0 : (⟨0, 0⟩ : ℂ) = 0 := by
    simp [Complex.ext_iff]
  rw [atan2, h0, Complex.arg_zero]

lemma atan2_zero_of_nonneg (a : ℝ) (ha : 0 ≤ a) : atan2 0 a = 0 := by
  have h0 : (⟨a, 0⟩ : ℂ) = (a : ℂ) := by
    simp [Complex.ext_iff]
  rw [atan2, h0]
  exact Complex.arg_ofReal_of_nonneg ha

lemma atan2_zero_neg_one : atan2 0 (-1) = Real.pi := by
  have h0 : (⟨-1, 0⟩ : ℂ) = -1 := by
    simp [Complex.ext_iff]
  rw [atan2, h0, Complex.arg_neg_one]

lemma radians_degrees (t : ℝ) : radians (degrees t) = t := by
  rw [radians, degrees]
  field_simp

/-- Core round-trip identity: with `c2` the law-of-cosines value and
`(c2, s2)` on the unit circle, the two-link forward map at the elbow-up
joint angles returns `(x, y)`. -/
lemma fk_ik_aux (L1 L2 x y r c2 s2 : ℝ) (hr : 0 < r)
    (hr2 : r ^ 2 = x ^ 2 + y ^ 2)
    (hc2 : 2 * L1 * L2 * c2 = x ^ 2 + y ^ 2 - L1 ^ 2 - L2 ^ 2)
    (hcs : c2 ^ 2 + s2 ^ 2 = 1) :
    L1 * Real.cos (atan2 y x - atan2 (L2 * s2) (L1 + L2 * c2)) +
        L2 * Real.cos (atan2 y x - atan2 (L2 * s2) (L1 + L2 * c2) + atan2 s2 c2) = x ∧
    L1 * Real.sin (atan2 y x - atan2 (L2 * s2) (L1 + L2 * c2)) +
        L2 * Real.sin (atan2 y x - atan2 (L2 * s2) (L1 + L2 * c2) + atan2 s2 c2) = y := by
  have hkr : (L1 + L2 * c2) ^ 2 + (L2 * s2) ^ 2 = r ^ 2 := by
    rw [hr2]
    linear_combination L2 ^ 2 * hcs + hc2
  have hcos2 : Real.cos (atan2 s2 c2) = c2 := by
    have h := cos_atan2 s2 c2 1 one_pos (by linarith)
    simpa using h
  have hsin2 : Real.sin (atan2 s2 c2) = s2 := by
    have h := sin_atan2 s2 c2 1 one_pos (by linarith)
    simpa using h
  have hcosp : Real.cos (atan2 y x) = x / r := cos_atan2 y x r hr (by linarith)
  have hsinp : Real.sin (atan2 y x) = y / r := sin_atan2 y x r hr (by linarith)
  have hcosq : Real.cos (atan2 (L2 * s2) (L1 + L2 * c2)) = (L1 + L2 * c2) / r :=
    cos_atan2 (L2 * s2) (L1 + L2 * c2) r hr hkr
  have hsinq : Real.sin (atan2 (L2 * s2) (L1 + L2 * c2)) = (L2 * s2) / r :=
    sin_atan2 (L2 * s2) (L1 + L2 * c2) r hr hkr
  constructor
  · rw [Real.cos_add, Real.cos_sub, Real.sin_sub, hcos2, hsin2, hcosp, hsinp, hcosq, hsinq]
    field_simp
    linear_combination x * hkr
  · rw [Real.sin_add, Real.cos_sub, Real.sin_sub, hcos2, hsin2, hcosp, hsinp, hcosq, hsinq]
    field_simp
    linear_combination y * hkr

lemma synthPos_some (ikf : ℝ → ℝ → Option (ℝ × ℝ)) (o1 o2 p1 p2 : ℤ) (x y : ℝ)
    (th : ℝ × ℝ) (h : ikf x y = some th) :
    synthPos ikf o1 o2 p1 p2 x y =
      (-(trunc (th.1 * STEPS_PER_RAD_J1) - o1), -(trunc (th.2 * STEPS_PER_RAD_J2) - o2)) := by
  obtain ⟨t1, t2⟩ := th
  simp [synthPos, h]

lemma genCommandsGo_hold_zero (ikf : ℝ → ℝ → Option (ℝ × ℝ)) (o1 o2 : ℤ)
    (homeX homeY : ℝ)
    (hzero : synthPos ikf o1 o2 0 0 homeX homeY = (0, 0)) :
    ∀ (l : List Sample) (i : ℕ),
      (∀ q ∈ l, q.1 = homeX ∧ q.2.1 = homeY) →
      ∀ cmd ∈ genCommandsGo ikf o1 o2 i 0 0 l, cmd.j1delta = 0 ∧ cmd.j2delta = 0 := by
  intro l
  induction l with
  | nil =>
    intro i hq cmd hcmd
    simp [genCommandsGo] at hcmd
  | cons s rest ih =>
    intro i hq cmd hcmd
    have hs := hq s (List.mem_cons_self s rest)
    have hcurr : synthPos ikf o1 o2 0 0 s.1 s.2.1 = (0, 0) := by
      rw [hs.1, hs.2]
      exact hzero
    simp only [genCommandsGo, hcurr] at hcmd
    rcases List.mem_cons.1 hcmd with h | h
    · subst h
      norm_num
    · exact ih (i + 1) (fun q hq' => hq q (List.mem_cons_of_mem s hq')) cmd h

lemma c5_dist_zero : pyDist ((0 : ℝ), (309.5 : ℝ)) (0, 309.5) = 0 := by
  rw [pyDist]
  norm_num

lemma c5_trunc_ten : (trunc (0.2 / DT)).toNat = 10 := by
  rw [trunc, DT, if_pos (by norm_num)]
  rw [show (0.2 : ℝ) / 0.02 = ((10 : ℕ) : ℝ) by norm_num, Int.floor_natCast]
  rfl

lemma c5_travel_empty :
    interpolate_travel ((0 : ℝ), (309.5 : ℝ)) (0, 309.5) TRAVEL_SPEED DT 0 = [] := by
  simp only [interpolate_travel]
  rw [if_pos]
  rw [c5_dist_zero]
  norm_num

lemma c5_trajectory :
    buildTrajectory (0, 309.5) [Waypoint.mk 0 309.5 0] =
      ((0 : ℝ), (309.5 : ℝ), (0 : ℕ)) ::
        (List.replicate 10 ((0 : ℝ), (309.5 : ℝ), (0 : ℕ)) ++
          [((0 : ℝ), (309.5 : ℝ), (0 : ℕ))]) := by
  simp only [buildTrajectory, List.foldl_cons, List.foldl_nil, processTarget]
  rw [if_neg (by simp)]
  rw [if_pos trivial]
  rw [c5_trunc_ten, c5_travel_empty, if_pos rfl]
  simp

lemma travel_scalar_lt_one (n i : ℕ) (hi : i < n) (dt : ℝ) (hdt : 0 < dt) :
    get_quintic_scalar (i * dt) (n * dt) < 1 := by
  have hin : (i : ℝ) < (n : ℝ) := by exact_mod_cast hi
  have hn0 : (0 : ℝ) < n := lt_of_le_of_lt (by positivity) hin
  have hT : (0 : ℝ) < (n : ℝ) * dt := mul_pos hn0 hdt
  have hlt : (i : ℝ) * dt < (n : ℝ) * dt := by nlinarith
  simp only [get_quintic_scalar]
  rw [if_neg (not_le.2 hlt)]
  by_cases h0 : (i : ℝ) * dt ≤ 0
  · rw [if_pos h0]
    norm_num
  · rw [if_neg h0]
    have htau0 : 0 < (i : ℝ) * dt / ((n : ℝ) * dt) := div_pos (lt_of_not_le h0) hT
    have htau1 : (i : ℝ) * dt / ((n : ℝ) * dt) < 1 := (div_lt_one hT).2 hlt
    set tau := (i : ℝ) * dt / ((n : ℝ) * dt) with htau
    have hident : 1 - (10 * tau ^ 3 - 15 * tau ^ 4 + 6 * tau ^ 5) =
        (1 - tau) ^ 3 * (6 * tau ^ 2 + 3 * tau + 1) := by ring
    have hpos : 0 < (1 - tau) ^ 3 * (6 * tau ^ 2 + 3 * tau + 1) :=
      mul_pos (pow_pos (sub_pos.2 htau1) 3) (by nlinarith)
    linarith [hident ▸ hpos]

lemma posFrom_append_none (ikf : ℝ → ℝ → Option (ℝ × ℝ)) (o1 o2 : ℤ) (p : ℤ × ℤ)
    (l : List Sample) (s : Sample) (hik : ikf s.1 s.2.1 = none) :
    posFrom ikf o1 o2 p (l ++ [s]) = posFrom ikf o1 o2 p l := by
  simp [posFrom, List.foldl_append, synthPos, hik]

/-! ## Claims -/

/-- C2: for every point whose distance from the origin exceeds
`max_reach + eps` or falls below `min_reach - eps` (any `eps ≥ 0`), the
grid-test inverse kinematics returns `reachable = false`. -/
theorem claim_C2_reject (c : SCARARobotController) (x y eps : ℝ) (heps : 0 ≤ eps)
    (h : Real.sqrt (x ^ 2 + y ^ 2) > c.max_reach + eps ∨
         Real.sqrt (x ^ 2 + y ^ 2) < c.min_reach - eps) :
    (c.inverse_kinematics x y).2.2 = false := by
  have hgate : Real.sqrt (x ^ 2 + y ^ 2) > c.max_reach ∨
      Real.sqrt (x ^ 2 + y ^ 2) < c.min_reach := by
    rcases h with h | h
    · exact Or.inl (lt_of_le_of_lt (le_add_of_nonneg_right heps) h)
    · exact Or.inr (lt_of_lt_of_le h (by linarith))
  simp only [SCARARobotController.inverse_kinematics]
  rw [if_pos hgate]

/-- Witness for C2: the point `(400, 0)` is beyond the maximum reach of the
`L1 = 160, L2 = 149.5` arm and is rejected. -/
theorem claim_C2_reject_witness :
    ((0 : ℝ) ≤ 0 ∧ Real.sqrt ((400 : ℝ) ^ 2 + 0 ^ 2) >
        (SCARARobotController.mk 160 149.5).max_reach + 0) ∧
      ((SCARARobotController.mk 160 149.5).inverse_kinematics 400 0).2.2 = false := by
  have hs : Real.sqrt ((400 : ℝ) ^ 2 + 0 ^ 2) = 400 := by
    rw [show ((400 : ℝ) ^ 2 + 0 ^ 2) = 400 ^ 2 by norm_num]
    exact Real.sqrt_sq (by norm_num)
  have hgt : Real.sqrt ((400 : ℝ) ^ 2 + 0 ^ 2) >
      (SCARARobotController.mk 160 149.5).max_reach + 0 := by
    rw [hs]
    simp only [SCARARobotController.max_reach]
    norm_num
  exact ⟨⟨le_refl 0, hgt⟩,
    claim_C2_reject (SCARARobotController.mk 160 149.5) 400 0 0 (le_refl 0) (Or.inl hgt)⟩

/-- C6: if the batch register write raises at row `k` of an `n`-row table,
the dispatcher emits the writes of rows `0 .. k-1` only, followed by exactly
one safe-state write `M4 := 0`, and reports the failing row index `k`; no
row after `k` is written. -/
theorem claim_C6_abort (rows : List CsvRow) (k : ℕ) (h : k < rows.length) :
    dispatch (some k) rows =
      (expectedWrites 0 (rows.take k) ++ [PlcWrite.bitM4 0], some k) := by
  have := dispatchGo_fail rows 0 k (Nat.zero_le k) (by omega)
  simpa using this

/-- Witness for C6: failing at row 0 of a 2-row table emits only the
safe-state write and reports index 0. -/
theorem claim_C6_abort_witness :
    (0 < [CsvRow.mk 1 2 3 4 1, CsvRow.mk 5 6 7 8 0].length) ∧
      dispatch (some 0) [CsvRow.mk 1 2 3 4 1, CsvRow.mk 5 6 7 8 0] =
        ([PlcWrite.bitM4 0], some 0) := by
  have h : 0 < [CsvRow.mk 1 2 3 4 1, CsvRow.mk 5 6 7 8 0].length := by decide
  refine ⟨h, ?_⟩
  have := claim_C6_abort [CsvRow.mk 1 2 3 4 1, CsvRow.mk 5 6 7 8 0] 0 h
  simpa [expectedWrites] using this

/-- C7: for `T > 0` the quintic time-scaling scalar satisfies `s 0 = 0`,
`s T = 1`, is strictly increasing on `[0, T]` (hence on `(0, T)`), and has
(one-sided) derivative `0` at both `t = 0` and `t = T`. -/
theorem claim_C7_quintic (T : ℝ) (hT : 0 < T) :
    get_quintic_scalar 0 T = 0 ∧ get_quintic_scalar T T = 1 ∧
    StrictMonoOn (fun t => get_quintic_scalar t T) (Set.Icc 0 T) ∧
    HasDerivWithinAt (fun t => get_quintic_scalar t T) 0 (Set.Icc 0 T) 0 ∧
    HasDerivWithinAt (fun t => get_quintic_scalar t T) 0 (Set.Icc 0 T) T := by
  refine ⟨?_, ?_, quintic_strictMonoOn T hT, ?_, ?_⟩
  · simp only [get_quintic_scalar]
    rw [if_neg (by simpa using hT), if_pos le_rfl]
  · simp only [get_quintic_scalar, if_pos (le_refl T)]
  · apply quintic_deriv_zero_at T hT 0 (by constructor <;> simp [hT.le])
    rw [zero_div]
    norm_num
  · apply quintic_deriv_zero_at T hT T (by constructor <;> simp [hT.le])
    rw [div_self hT.ne']
    norm_num

/-- Witness for C7 at `T = 1`. -/
theorem claim_C7_quintic_witness :
    (0 : ℝ) < 1 ∧
      (get_quintic_scalar 0 1 = 0 ∧ get_quintic_scalar 1 1 = 1 ∧
       StrictMonoOn (fun t => get_quintic_scalar t 1) (Set.Icc 0 1) ∧
       HasDerivWithinAt (fun t => get_quintic_scalar t 1) 0 (Set.Icc 0 1) 0 ∧
       HasDerivWithinAt (fun t => get_quintic_scalar t 1) 0 (Set.Icc 0 1) 1) :=
  ⟨by norm_num, claim_C7_quintic 1 (by norm_num)⟩

/-- C1: for every point whose distance from the origin lies between
`min_reach` and `max_reach` inclusive, the (elbow-up) inverse kinematics
reports the point reachable and forward kinematics after inverse kinematics
reproduces `(x, y)` exactly — in particular to within `1e-6` mm. -/
theorem claim_C1_roundtrip (c : SCARARobotController) (x y : ℝ)
    (hl1 : 0 < c.L1) (hl2 : 0 < c.L2)
    (hmin : c.min_reach ≤ Real.sqrt (x ^ 2 + y ^ 2))
    (hmax : Real.sqrt (x ^ 2 + y ^ 2) ≤ c.max_reach) :
    (c.inverse_kinematics x y).2.2 = true ∧
    c.forward_kinematics (c.inverse_kinematics x y).1 (c.inverse_kinematics x y).2.1 =
      (x, y) ∧
    |(c.forward_kinematics (c.inverse_kinematics x y).1
        (c.inverse_kinematics x y).2.1).1 - x| ≤ 1e-6 ∧
    |(c.forward_kinematics (c.inverse_kinematics x y).1
        (c.inverse_kinematics x y).2.1).2 - y| ≤ 1e-6 := by
  have hr0 : (0 : ℝ) ≤ Real.sqrt (x ^ 2 + y ^ 2) := Real.sqrt_nonneg _
  have hsq : Real.sqrt (x ^ 2 + y ^ 2) ^ 2 = x ^ 2 + y ^ 2 := Real.sq_sqrt (by positivity)
  have hminv := hmin
  rw [SCARARobotController.min_reach] at hminv
  have hmaxv := hmax
  rw [SCARARobotController.max_reach] at hmaxv
  have hgate : ¬(Real.sqrt (x ^ 2 + y ^ 2) > c.max_reach ∨
      Real.sqrt (x ^ 2 + y ^ 2) < c.min_reach) := by
    push_neg
    exact ⟨hmax, hmin⟩
  have hminr : (c.L1 - c.L2) ^ 2 ≤ x ^ 2 + y ^ 2 := by
    calc (c.L1 - c.L2) ^ 2 = |c.L1 - c.L2| ^ 2 := (sq_abs _).symm
      _ ≤ Real.sqrt (x ^ 2 + y ^ 2) ^ 2 := pow_le_pow_left₀ (abs_nonneg _) hminv 2
      _ = x ^ 2 + y ^ 2 := hsq
  have hmaxr : x ^ 2 + y ^ 2 ≤ (c.L1 + c.L2) ^ 2 := by
    calc x ^ 2 + y ^ 2 = Real.sqrt (x ^ 2 + y ^ 2) ^ 2 := hsq.symm
      _ ≤ (c.L1 + c.L2) ^ 2 := pow_le_pow_left₀ hr0 hmaxv 2
  have hden : (0 : ℝ) < 2 * c.L1 * c.L2 := by positivity
  set c2 := c.cos_theta2 x y with hc2def
  set s2 := Real.sqrt (1 - c2 ^ 2) with hs2def
  set t2 := atan2 s2 c2 with ht2def
  have habsc2 : |c2| ≤ 1 := by
    rw [hc2def, abs_le, SCARARobotController.cos_theta2]
    constructor
    · rw [le_div_iff₀ hden]
      nlinarith
    · rw [div_le_one hden]
      nlinarith
  have hc2gate : ¬ (|c2| > 1) := not_lt.2 habsc2
  have hikval : c.inverse_kinematics x y =
      (degrees (atan2 y x - atan2 (c.L2 * Real.sin t2) (c.L1 + c.L2 * Real.cos t2)),
       degrees t2, true) := by
    simp only [SCARARobotController.inverse_kinematics]
    rw [if_neg hgate, ← hc2def, if_neg hc2gate, ← hs2def, ← ht2def]
  have hc2mul : 2 * c.L1 * c.L2 * c2 = x ^ 2 + y ^ 2 - c.L1 ^ 2 - c.L2 ^ 2 := by
    rw [hc2def, SCARARobotController.cos_theta2]
    field_simp
  have h1c2 : 0 ≤ 1 - c2 ^ 2 := by
    nlinarith [(abs_le.1 habsc2).1, (abs_le.1 habsc2).2]
  have hs2sq : s2 ^ 2 = 1 - c2 ^ 2 := by
    rw [hs2def]
    exact Real.sq_sqrt h1c2
  have hcs : c2 ^ 2 + s2 ^ 2 = 1 := by
    rw [hs2sq]
    ring
  have hcos2 : Real.cos t2 = c2 := by
    rw [ht2def]
    have h := cos_atan2 s2 c2 1 one_pos (by linarith)
    simpa using h
  have hsin2 : Real.sin t2 = s2 := by
    rw [ht2def]
    have h := sin_atan2 s2 c2 1 one_pos (by linarith)
    simpa using h
  suffices h : (c.inverse_kinematics x y).2.2 = true ∧
      (c.forward_kinematics (c.inverse_kinematics x y).1
        (c.inverse_kinematics x y).2.1).1 = x ∧
      (c.forward_kinematics (c.inverse_kinematics x y).1
        (c.inverse_kinematics x y).2.1).2 = y by
    obtain ⟨ha, hb, hc'⟩ := h
    refine ⟨ha, Prod.ext hb hc', ?_, ?_⟩
    · rw [hb]
      norm_num
    · rw [hc']
      norm_num
  rcases hr0.lt_or_eq with hr | hr
  · -- positive distance from the origin
    have haux := fk_ik_aux c.L1 c.L2 x y (Real.sqrt (x ^ 2 + y ^ 2)) c2 s2 hr hsq hc2mul hcs
    refine ⟨by rw [hikval], ?_, ?_⟩
    · rw [hikval]
      simp only [SCARARobotController.forward_kinematics, radians_degrees]
      rw [hcos2, hsin2]
      exact haux.1
    · rw [hikval]
      simp only [SCARARobotController.forward_kinematics, radians_degrees]
      rw [hcos2, hsin2]
      exact haux.2
  · -- the origin: only possible when L1 = L2, and the code still round-trips
    have hxy : x ^ 2 + y ^ 2 = 0 := by
      rw [← hsq, ← hr]
      norm_num
    have hx2 : x ^ 2 = 0 := by linarith [sq_nonneg x, sq_nonneg y]
    have hy2 : y ^ 2 = 0 := by linarith [sq_nonneg x, sq_nonneg y]
    have hx : x = 0 := by
      have h := sq_eq_zero_iff.mp hx2
      exact h
    have hy : y = 0 := by
      have h := sq_eq_zero_iff.mp hy2
      exact h
    have hL : c.L1 = c.L2 := by
      rw [← hr] at hminv
      have h0 : c.L1 - c.L2 = 0 := abs_nonpos_iff.1 hminv
      linarith
    have hc2v : c2 = -1 := by
      rw [hc2def, SCARARobotController.cos_theta2, hx, hy, hL]
      rw [show (0 : ℝ) ^ 2 + 0 ^ 2 - c.L2 ^ 2 - c.L2 ^ 2 = -(2 * c.L2 * c.L2) by ring]
      rw [neg_div, div_self (by positivity)]
    have hs2v : s2 = 0 := by
      rw [hs2def, hc2v]
      norm_num
    have ht2v : t2 = Real.pi := by
      rw [ht2def, hs2v, hc2v]
      exact atan2_zero_neg_one
    have hk1v : c.L1 + c.L2 * Real.cos t2 = 0 := by
      rw [ht2v, Real.cos_pi, hL]
      ring
    have hk2v : c.L2 * Real.sin t2 = 0 := by
      rw [ht2v, Real.sin_pi]
      ring
    have ht1v : atan2 y x - atan2 (c.L2 * Real.sin t2) (c.L1 + c.L2 * Real.cos t2) = 0 := by
      rw [hx, hy, hk1v, hk2v, atan2_zero_zero]
      ring
    refine ⟨by rw [hikval], ?_, ?_⟩
    · rw [hikval]
      simp only [SCARARobotController.forward_kinematics, radians_degrees]
      rw [ht1v, ht2v, hx]
      simp [Real.cos_pi]
      linarith
    · rw [hikval]
      simp only [SCARARobotController.forward_kinematics, radians_degrees]
      rw [ht1v, ht2v, hy]
      simp [Real.sin_pi]

/-- Witness for C1: the boundary point `(0, 309.5)` of the
`L1 = 160, L2 = 149.5` arm is reachable and round-trips exactly. -/
theorem claim_C1_roundtrip_witness :
    ((0 : ℝ) < (SCARARobotController.mk 160 149.5).L1 ∧
     (0 : ℝ) < (SCARARobotController.mk 160 149.5).L2 ∧
     (SCARARobotController.mk 160 149.5).min_reach ≤
       Real.sqrt ((0 : ℝ) ^ 2 + 309.5 ^ 2) ∧
     Real.sqrt ((0 : ℝ) ^ 2 + 309.5 ^ 2) ≤
       (SCARARobotController.mk 160 149.5).max_reach) ∧
    ((SCARARobotController.mk 160 149.5).inverse_kinematics 0 309.5).2.2 = true ∧
    (SCARARobotController.mk 160 149.5).forward_kinematics
        ((SCARARobotController.mk 160 149.5).inverse_kinematics 0 309.5).1
        ((SCARARobotController.mk 160 149.5).inverse_kinematics 0 309.5).2.1 =
      (0, 309.5) := by
  have hs : Real.sqrt ((0 : ℝ) ^ 2 + 309.5 ^ 2) = 309.5 := by
    rw [show ((0 : ℝ) ^ 2 + 309.5 ^ 2) = 309.5 ^ 2 by norm_num]
    exact Real.sqrt_sq (by norm_num)
  have h1 : (0 : ℝ) < (SCARARobotController.mk 160 149.5).L1 := by norm_num
  have h2 : (0 : ℝ) < (SCARARobotController.mk 160 149.5).L2 := by norm_num
  have h3 : (SCARARobotController.mk 160 149.5).min_reach ≤
      Real.sqrt ((0 : ℝ) ^ 2 + 309.5 ^ 2) := by
    rw [hs, SCARARobotController.min_reach, abs_le]
    constructor <;> norm_num
  have h4 : Real.sqrt ((0 : ℝ) ^ 2 + 309.5 ^ 2) ≤
      (SCARARobotController.mk 160 149.5).max_reach := by
    rw [hs, SCARARobotController.max_reach]
    norm_num
  have h := claim_C1_roundtrip (SCARARobotController.mk 160 149.5) 0 309.5 h1 h2 h3 h4
  exact ⟨⟨h1, h2, h3, h4⟩, h.1, h.2.1⟩

/-- C9: in every generated command table, the `Time` value of row `j` is
exactly `j * DT`: the column starts at `0` and each successive row exceeds
the previous one by exactly `DT` (so it is strictly increasing). -/
theorem claim_C9_time (ikf : ℝ → ℝ → Option (ℝ × ℝ)) (o1 o2 : ℤ) (traj : List Sample)
    (j : ℕ) (h : j < (genCommands ikf o1 o2 traj).length) :
    ((genCommands ikf o1 o2 traj).get ⟨j, h⟩).time = (j : ℝ) * DT := by
  have := genCommandsGo_time ikf o1 o2 traj 0 0 0 j h
  simpa [genCommands, round3_nat_mul_DT] using this

/-- Witness for C9: the single-row table of a one-sample trajectory has
`Time = 0 * DT`. -/
theorem claim_C9_time_witness :
    ∃ h : 0 < (genCommands (fun _ _ => (none : Option (ℝ × ℝ))) 0 0
        [((0 : ℝ), (0 : ℝ), (0 : ℕ))]).length,
      ((genCommands (fun _ _ => (none : Option (ℝ × ℝ))) 0 0
        [((0 : ℝ), (0 : ℝ), (0 : ℕ))]).get ⟨0, h⟩).time = ((0 : ℕ) : ℝ) * DT :=
  ⟨by simp [genCommands, genCommandsGo], claim_C9_time _ _ _ _ 0 _⟩

/-- C3: whenever the (pluggable) inverse kinematics reports a sample
unreachable (`none`, the `t1 is None` branch of the loop), the synthesized
command for that sample keeps both joint step positions equal to the
previous command's positions, and generation still emits one command per
sample (no sample aborts the run). -/
theorem claim_C3_hold (ikf : ℝ → ℝ → Option (ℝ × ℝ)) (o1 o2 : ℤ) (traj : List Sample)
    (j : ℕ) (hj : j + 1 < traj.length)
    (hik : ikf (traj.get ⟨j + 1, hj⟩).1 (traj.get ⟨j + 1, hj⟩).2.1 = none) :
    (genCommands ikf o1 o2 traj).length = traj.length ∧
    ∃ h1 : j + 1 < (genCommands ikf o1 o2 traj).length,
    ∃ h0 : j < (genCommands ikf o1 o2 traj).length,
      ((genCommands ikf o1 o2 traj).get ⟨j + 1, h1⟩).j1pos =
        ((genCommands ikf o1 o2 traj).get ⟨j, h0⟩).j1pos ∧
      ((genCommands ikf o1 o2 traj).get ⟨j + 1, h1⟩).j2pos =
        ((genCommands ikf o1 o2 traj).get ⟨j, h0⟩).j2pos := by
  have hlen : (genCommandsGo ikf o1 o2 0 0 0 traj).length = traj.length :=
    genCommandsGo_length ikf o1 o2 traj 0 0 0
  simp only [genCommands]
  refine ⟨hlen, by omega, by omega, ?_⟩
  have hp1 := genCommandsGo_pos ikf o1 o2 traj 0 0 0 (j + 1) (by omega)
  have hp0 := genCommandsGo_pos ikf o1 o2 traj 0 0 0 j (by omega)
  have htake : traj.take (j + 1 + 1) = traj.take (j + 1) ++ [traj.get ⟨j + 1, hj⟩] := by
    rw [List.take_succ]
    simp [List.getElem?_eq_getElem hj]
  have hstep : posFrom ikf o1 o2 (0, 0) (traj.take (j + 1 + 1)) =
      posFrom ikf o1 o2 (0, 0) (traj.take (j + 1)) := by
    rw [htake]
    exact posFrom_append_none ikf o1 o2 _ _ _ hik
  have heq := hp1.trans (hstep.trans hp0.symm)
  exact ⟨congrArg Prod.fst heq, congrArg Prod.snd heq⟩

/-- Witness for C3: with an inverse kinematics that always reports
unreachable, the second command of a two-sample trajectory holds the first
command's step positions. -/
theorem claim_C3_hold_witness :
    ∃ _hj : 0 + 1 < ([((0 : ℝ), (0 : ℝ), (0 : ℕ)), ((1 : ℝ), (2 : ℝ), (0 : ℕ))] :
        List Sample).length,
      (genCommands (fun _ _ => (none : Option (ℝ × ℝ))) 0 0
          [((0 : ℝ), (0 : ℝ), (0 : ℕ)), ((1 : ℝ), (2 : ℝ), (0 : ℕ))]).length = 2 ∧
      ∃ h1 : 0 + 1 < (genCommands (fun _ _ => (none : Option (ℝ × ℝ))) 0 0
          [((0 : ℝ), (0 : ℝ), (0 : ℕ)), ((1 : ℝ), (2 : ℝ), (0 : ℕ))]).length,
      ∃ h0 : 0 < (genCommands (fun _ _ => (none : Option (ℝ × ℝ))) 0 0
          [((0 : ℝ), (0 : ℝ), (0 : ℕ)), ((1 : ℝ), (2 : ℝ), (0 : ℕ))]).length,
        ((genCommands (fun _ _ => (none : Option (ℝ × ℝ))) 0 0
            [((0 : ℝ), (0 : ℝ), (0 : ℕ)), ((1 : ℝ), (2 : ℝ), (0 : ℕ))]).get
          ⟨0 + 1, h1⟩).j1pos =
        ((genCommands (fun _ _ => (none : Option (ℝ × ℝ))) 0 0
            [((0 : ℝ), (0 : ℝ), (0 : ℕ)), ((1 : ℝ), (2 : ℝ), (0 : ℕ))]).get
          ⟨0, h0⟩).j1pos ∧
        ((genCommands (fun _ _ => (none : Option (ℝ × ℝ))) 0 0
            [((0 : ℝ), (0 : ℝ), (0 : ℕ)), ((1 : ℝ), (2 : ℝ), (0 : ℕ))]).get
          ⟨0 + 1, h1⟩).j2pos =
        ((genCommands (fun _ _ => (none : Option (ℝ × ℝ))) 0 0
            [((0 : ℝ), (0 : ℝ), (0 : ℕ)), ((1 : ℝ), (2 : ℝ), (0 : ℕ))]).get
          ⟨0, h0⟩).j2pos := by
  have hj : 0 + 1 < ([((0 : ℝ), (0 : ℝ), (0 : ℕ)), ((1 : ℝ), (2 : ℝ), (0 : ℕ))] :
      List Sample).length := by simp
  have h := claim_C3_hold (fun _ _ => (none : Option (ℝ × ℝ))) 0 0
    [((0 : ℝ), (0 : ℝ), (0 : ℕ)), ((1 : ℝ), (2 : ℝ), (0 : ℕ))] 0 hj rfl
  exact ⟨hj, by simpa using h.1, h.2⟩

/-- C4 counterexample: at `(400, 0)` the IK3 robot's raw cos theta2 exceeds
`1` by far more than the claimed `1e-9` tolerance, yet the value is silently
clamped to `1` and the inverse kinematics still returns joint angles
(`(0, 0)`, a reachable elbow-straight pose) instead of treating the point as
unreachable.  This refutes the claim that overshoot beyond the tolerance is
reported unreachable. -/
theorem claim_C4_counterexample :
    (ScaraRobot.mk 155 160).c2raw 400 0 > 1 + 1e-9 ∧
    (ScaraRobot.mk 155 160).c2clamped 400 0 = 1 ∧
    (ScaraRobot.mk 155 160).inverse_kinematics 400 0 = (0, 0) := by
  have hraw : (ScaraRobot.mk 155 160).c2raw 400 0 = 110375 / 49600 := by
    rw [ScaraRobot.c2raw]
    norm_num
  have hgt : (ScaraRobot.mk 155 160).c2raw 400 0 > 1 + 1e-9 := by
    rw [hraw]
    norm_num
  have hclamp : (ScaraRobot.mk 155 160).c2clamped 400 0 = 1 := by
    simp only [ScaraRobot.c2clamped]
    rw [if_pos]
    rw [hraw]
    norm_num
  refine ⟨hgt, hclamp, ?_⟩
  have hs2 : Real.sqrt (1 - (ScaraRobot.mk 155 160).c2clamped 400 0 ^ 2) = 0 := by
    rw [hclamp, show (1 : ℝ) - 1 ^ 2 = 0 by norm_num, Real.sqrt_zero]
  simp only [ScaraRobot.inverse_kinematics, hs2, hclamp]
  rw [if_neg (by norm_num), if_neg (by norm_num)]
  norm_num
  exact ⟨atan2_zero_of_nonneg (63 / 80) (by norm_num),
    atan2_zero_of_nonneg 1 (by norm_num)⟩

/-- C4 amended: the IK3 inverse kinematics clamps cos theta2 to `[-1, 1]`
unconditionally, with no tolerance (any overshoot is silently clamped and
joint angles are still produced), while the grid-test inverse kinematics
never clamps: whenever the raw law-of-cosines value has magnitude above `1`
it returns `reachable = false`. -/
theorem claim_C4_amended (r : ScaraRobot) (c : SCARARobotController) (x y u v : ℝ)
    (h : 1 < |c.cos_theta2 u v|) :
    r.c2clamped x y = max (-1) (min 1 (r.c2raw x y)) ∧
    c.inverse_kinematics u v = (0, 0, false) := by
  constructor
  · simp only [ScaraRobot.c2clamped]
    split_ifs with h1 h2
    · rw [min_eq_left h1.le, max_eq_right (by norm_num : (-1 : ℝ) ≤ 1)]
    · rw [min_eq_right (by linarith), max_eq_left (by linarith)]
    · rw [min_eq_right (by linarith), max_eq_right (by linarith)]
  · simp only [SCARARobotController.inverse_kinematics]
    split_ifs with hgate
    · rfl
    · rfl

/-- Witness for the amended C4 at the concrete out-of-reach input `(400, 0)`
(grid-test arm `L1 = 160, L2 = 149.5`; IK3 arm `l1 = 155, l2 = 160`). -/
theorem claim_C4_amended_witness :
    1 < |(SCARARobotController.mk 160 149.5).cos_theta2 400 0| ∧
    ((ScaraRobot.mk 155 160).c2clamped 400 0 =
        max (-1) (min 1 ((ScaraRobot.mk 155 160).c2raw 400 0)) ∧
      (SCARARobotController.mk 160 149.5).inverse_kinematics 400 0 = (0, 0, false)) := by
  have hval : (SCARARobotController.mk 160 149.5).cos_theta2 400 0 = 112049.75 / 47840 := by
    rw [SCARARobotController.cos_theta2]
    norm_num
  have h : 1 < |(SCARARobotController.mk 160 149.5).cos_theta2 400 0| := by
    rw [hval, abs_of_nonneg (by norm_num)]
    norm_num
  exact ⟨h, claim_C4_amended (ScaraRobot.mk 155 160) (SCARARobotController.mk 160 149.5)
    400 0 400 0 h⟩

/-- C5 counterexample: for the waypoint list `[(0, 309.5, Up)]` with home at
`(0, 309.5)`, the trajectory does not have exactly 1 sample — the pen-up
branch first appends 10 pen-lift dwell samples (0.2 s at 20 ms) and the
empty travel move is replaced by one forced target sample, so together with
the seeded home sample the trajectory has 12 samples. -/
theorem claim_C5_counterexample :
    (buildTrajectory (0, 309.5) [Waypoint.mk 0 309.5 0]).length = 12 ∧
    ¬ (buildTrajectory (0, 309.5) [Waypoint.mk 0 309.5 0]).length = 1 := by
  rw [c5_trajectory]
  constructor
  · simp
  · simp

/-- C5 amended: the scenario's trajectory has 12 samples (home sample, 10
dwell samples, one forced target sample), all at `(0, 309.5)`, and every
synthesized command row holds step position 0 with `j1_delta = 0` and
`j2_delta = 0`. -/
theorem claim_C5_amended :
    (buildTrajectory (0, 309.5) [Waypoint.mk 0 309.5 0]).length = 12 ∧
    ∀ cmd ∈ motorCommands (ScaraRobot.mk 160 149.5) 0 309.5
        (buildTrajectory (0, 309.5) [Waypoint.mk 0 309.5 0]),
      cmd.j1delta = 0 ∧ cmd.j2delta = 0 := by
  constructor
  · rw [c5_trajectory]
    simp
  · intro cmd hcmd
    have hzero : synthPos
        (fun x y => some ((ScaraRobot.mk 160 149.5).inverse_kinematics x y))
        (trunc (((ScaraRobot.mk 160 149.5).inverse_kinematics 0 309.5).1 *
          STEPS_PER_RAD_J1))
        (trunc (((ScaraRobot.mk 160 149.5).inverse_kinematics 0 309.5).2 *
          STEPS_PER_RAD_J2)) 0 0 0 309.5 = (0, 0) := by
      rw [synthPos_some _ _ _ _ _ _ _
        ((ScaraRobot.mk 160 149.5).inverse_kinematics 0 309.5) rfl]
      simp
    have hmem : ∀ q ∈ buildTrajectory (0, 309.5) [Waypoint.mk 0 309.5 0],
        q.1 = (0 : ℝ) ∧ q.2.1 = (309.5 : ℝ) := by
      rw [c5_trajectory]
      intro q hq
      have hq' : q = ((0 : ℝ), (309.5 : ℝ), (0 : ℕ)) := by
        rcases List.mem_cons.1 hq with h | h
        · exact h
        · rcases List.mem_append.1 h with h' | h'
          · exact List.eq_of_mem_replicate h'
          · simpa using h'
      rw [hq']
      exact ⟨rfl, rfl⟩
    have hcmd' : cmd ∈ genCommandsGo
        (fun x y => some ((ScaraRobot.mk 160 149.5).inverse_kinematics x y))
        (trunc (((ScaraRobot.mk 160 149.5).inverse_kinematics 0 309.5).1 *
          STEPS_PER_RAD_J1))
        (trunc (((ScaraRobot.mk 160 149.5).inverse_kinematics 0 309.5).2 *
          STEPS_PER_RAD_J2)) 0 0 0
        (buildTrajectory (0, 309.5) [Waypoint.mk 0 309.5 0]) := by
      simpa [motorCommands, genCommands] using hcmd
    exact genCommandsGo_hold_zero _ _ _ 0 309.5 hzero _ 0 hmem cmd hcmd'

/-- C10: on a non-degenerate segment the travel profiler samples at times
`i*dt` for `i = 0 .. n-1`, so every emitted travel sample (in particular the
last) differs from the segment's end point; the draw profiler's last sample
is exactly the end point; and the Trajectory Builder always advances its
current position to the pen-up target afterward, so a travel segment's
emitted path stops short of the position the next segment starts from. -/
theorem claim_C10_endpoints (start_p end_p : ℝ × ℝ) (speed dt : ℝ) (pen : ℕ)
    (_hspeed : 0 < speed) (hdt : 0 < dt)
    (hnd : ¬ pyDist start_p end_p < 0.001) :
    (∀ q ∈ interpolate_travel start_p end_p speed dt pen, (q.1, q.2.1) ≠ end_p) ∧
    (interpolate_linear start_p end_p speed dt pen).getLast? =
      some (end_p.1, end_p.2, pen) ∧
    (∀ (st : List Sample × (ℝ × ℝ)) (target : Waypoint), target.pen = 0 →
      (processTarget st target).2 = (target.x, target.y)) := by
  refine ⟨?_, ?_, ?_⟩
  · -- travel samples never reach the end point
    intro q hq
    simp only [interpolate_travel] at hq
    rw [if_neg hnd] at hq
    obtain ⟨i, hi, rfl⟩ := List.mem_map.1 hq
    have hi' := List.mem_range.1 hi
    intro hcontra
    rw [Prod.ext_iff] at hcontra
    obtain ⟨hc1, hc2⟩ := hcontra
    dsimp only at hc1 hc2
    have hsig := travel_scalar_lt_one _ i hi' dt hdt
    have h1 : end_p.1 = start_p.1 := by
      have hz : (end_p.1 - start_p.1) *
          (1 - get_quintic_scalar (i * dt)
            ((if (trunc ((if pyDist start_p end_p / speed < dt then dt
                else pyDist start_p end_p / speed) / dt)).toNat < 5 then 5
              else (trunc ((if pyDist start_p end_p / speed < dt then dt
                else pyDist start_p end_p / speed) / dt)).toNat : ℕ) * dt)) = 0 := by
        linear_combination (-1 : ℝ) * hc1
      rcases mul_eq_zero.1 hz with h | h
      · linarith
      · exact absurd h (by linarith [hsig])
    have h2 : end_p.2 = start_p.2 := by
      have hz : (end_p.2 - start_p.2) *
          (1 - get_quintic_scalar (i * dt)
            ((if (trunc ((if pyDist start_p end_p / speed < dt then dt
                else pyDist start_p end_p / speed) / dt)).toNat < 5 then 5
              else (trunc ((if pyDist start_p end_p / speed < dt then dt
                else pyDist start_p end_p / speed) / dt)).toNat : ℕ) * dt)) = 0 := by
        linear_combination (-1 : ℝ) * hc2
      rcases mul_eq_zero.1 hz with h | h
      · linarith
      · exact absurd h (by linarith [hsig])
    apply hnd
    rw [pyDist, h1, h2]
    simp
    norm_num
  · -- the draw profiler lands exactly on the end point
    simp only [interpolate_linear]
    rw [if_neg hnd]
    by_cases hshort : pyDist start_p end_p / speed < dt
    · rw [if_pos hshort]
      rfl
    · rw [if_neg hshort]
      have hdur : dt ≤ pyDist start_p end_p / speed := not_lt.1 hshort
      have hone : (1 : ℝ) ≤ pyDist start_p end_p / speed / dt :=
        (one_le_div hdt).2 hdur
      have hfl : 1 ≤ trunc (pyDist start_p end_p / speed / dt) := by
        rw [trunc, if_pos (by linarith)]
        exact Int.le_floor.2 (by exact_mod_cast hone)
      have hn : 1 ≤ (trunc (pyDist start_p end_p / speed / dt)).toNat := by omega
      obtain ⟨m, hm⟩ : ∃ m, (trunc (pyDist start_p end_p / speed / dt)).toNat = m + 1 :=
        ⟨(trunc (pyDist start_p end_p / speed / dt)).toNat - 1, by omega⟩
      rw [hm, List.range_succ, List.map_append]
      simp only [List.map_cons, List.map_nil]
      rw [List.getLast?_concat]
      have hmm : ((m + 1 : ℕ) : ℝ) ≠ 0 := by
        positivity
      rw [div_self hmm, mul_one, mul_one]
      rw [show start_p.1 + (end_p.1 - start_p.1) = end_p.1 by ring,
        show start_p.2 + (end_p.2 - start_p.2) = end_p.2 by ring]
  · -- the builder advances the current position to the pen-up target
    intro st target hp
    simp only [processTarget]
    rw [if_neg (by simp [hp]), if_pos hp]

/-- Witness for C10 on the segment from `(0, 0)` to `(0, 100)` at speed 1,
tick 1. -/
theorem claim_C10_endpoints_witness :
    ((0 : ℝ) < 1 ∧ (0 : ℝ) < 1 ∧
      ¬ pyDist ((0 : ℝ), (0 : ℝ)) (0, 100) < 0.001) ∧
    ((∀ q ∈ interpolate_travel ((0 : ℝ), (0 : ℝ)) (0, 100) 1 1 0,
        (q.1, q.2.1) ≠ ((0 : ℝ), (100 : ℝ))) ∧
     (interpolate_linear ((0 : ℝ), (0 : ℝ)) (0, 100) 1 1 0).getLast? =
       some ((0 : ℝ), (100 : ℝ), (0 : ℕ)) ∧
     (∀ (st : List Sample × (ℝ × ℝ)) (target : Waypoint), target.pen = 0 →
       (processTarget st target).2 = (target.x, target.y))) := by
  have hdist : pyDist ((0 : ℝ), (0 : ℝ)) (0, 100) = 100 := by
    rw [pyDist]
    rw [show ((0 : ℝ) - 0) ^ 2 + ((0 : ℝ) - 100) ^ 2 = 100 ^ 2 by norm_num]
    exact Real.sqrt_sq (by norm_num)
  have hnd : ¬ pyDist ((0 : ℝ), (0 : ℝ)) (0, 100) < 0.001 := by
    rw [hdist]
    norm_num
  exact ⟨⟨by norm_num, by norm_num, hnd⟩,
    claim_C10_endpoints ((0 : ℝ), (0 : ℝ)) (0, 100) 1 1 0 (by norm_num) (by norm_num) hnd⟩

/-- C8: a segment shorter than the degenerate epsilon `0.001` produces zero
samples from both the travel profiler and the draw profiler. -/
theorem claim_C8_degenerate (start_p end_p : ℝ × ℝ) (speed dt : ℝ) (pen : ℕ)
    (h : pyDist start_p end_p < 0.001) :
    interpolate_travel start_p end_p speed dt pen = [] ∧
    interpolate_linear start_p end_p speed dt pen = [] := by
  refine ⟨?_, ?_⟩
  · simp only [interpolate_travel]
    rw [if_pos h]
  · simp only [interpolate_linear]
    rw [if_pos h]

/-- Witness for C8 on the zero-length segment from `(0, 0)` to `(0, 0)`. -/
theorem claim_C8_degenerate_witness :
    pyDist (0, 0) (0, 0) < 0.001 ∧
      (interpolate_travel (0, 0) (0, 0) 1 1 0 = [] ∧
       interpolate_linear (0, 0) (0, 0) 1 1 0 = []) := by
  have h : pyDist ((0 : ℝ), (0 : ℝ)) (0, 0) < 0.001 := by
    simp only [pyDist]
    norm_num
  exact ⟨h, claim_C8_degenerate (0, 0) (0, 0) 1 1 0 h⟩

end Scara
